import Mathlib

/-!
Verification of the `timetrace` command-duration tracker
(sources: src/timetrace/{categorize,utils,db,report,cli,config}.py).

Python strings are modelled as `List Char`; instants are modelled as
integer seconds in UTC (the code stores ISO-8601 UTC text whose
lexicographic order agrees with chronological order, and the claims only
speak about timestamps "to the second"); Python float durations are
modelled as integer seconds where every duration involved is a whole
number of seconds (binary64 arithmetic on such values is exact while the
sums stay below 2^53), and the report's totals accumulation is
additionally modelled under genuine binary64 semantics (exact dyadic
rationals with round-to-nearest-even at 53 bits) to settle how float
regrouping behaves on fractional durations; the two rendering helpers
that genuinely divide (`_bar`, the fail ratio) are modelled over exact
rationals.  Fallible code is modelled with `Option`: `categorize`
returns `none` on the input that makes the Python code raise, and
`init_db` returns `none` when one of its SQL statements raises.
-/

namespace Timetrace

/-- Python strings, modelled as lists of characters. -/
abbrev Str := List Char

/-- Python `str.split()` whitespace (ASCII part). -/
def pyIsSpace (c : Char) : Bool :=
  c = ' ' || c = '\t' || c = '\n' || c = '\r' || c = Char.ofNat 11 || c = Char.ofNat 12

/-- Helper for `pySplitWs`: `acc` is the current (reversed) token. -/
def pySplitAux : Str → Str → List Str
  | [], acc => if acc = [] then [] else [acc.reverse]
  | c :: rest, acc =>
    if pyIsSpace c then
      if acc = [] then pySplitAux rest [] else acc.reverse :: pySplitAux rest []
    else pySplitAux rest (c :: acc)

/-- Python `str.split()` with no separator: split on runs of whitespace,
discarding empty fields. -/
def pySplitWs (s : Str) : List Str := pySplitAux s []

/-- The apostrophe character (written via its code point). -/
def quoteC : Char := Char.ofNat 39

/-- The double-quote character (written via its code point). -/
def dquoteC : Char := Char.ofNat 34

/-- Python `str.strip(chars)`: remove leading and trailing characters from
the given set. -/
def pyStrip (chars : List Char) (s : Str) : Str :=
  ((s.dropWhile (fun c => c ∈ chars)).reverse.dropWhile (fun c => c ∈ chars)).reverse

/-- Python `str.lower()` (ASCII part). -/
def pyLower (s : Str) : Str := s.map Char.toLower

/-- Python `pat in s` (substring containment), as a `Bool`. -/
def pyContains (s pat : Str) : Bool := decide (pat <:+: s)

end Timetrace

namespace Timetrace

/-! ## `categorize.py` -/

def TEST_PREFIXES : List Str :=
  ["pytest", "nosetests", "tox", "npm", "pnpm", "yarn", "mvn", "gradle", "dotnet", "go", "cargo"].map
    String.toList

def BUILD_KEYWORDS : List Str := ["build", "compile", "package", "bundle"].map String.toList

def TEST_KEYWORDS : List Str := ["test", "tests"].map String.toList

def LINT_KEYWORDS : List Str :=
  ["lint", "format", "fmt", "ruff", "flake8", "black", "prettier", "eslint"].map String.toList

def GIT_PREFIXES : List Str := ["git"].map String.toList

def DOCKER_PREFIXES : List Str := ["docker", "podman"].map String.toList

/-- `categorize(command_str)` from `categorize.py`.  The Python body takes
`command_str.split()[0]`, which raises `IndexError` when `split()` yields
no tokens (a whitespace-only, non-empty string); that failure is modelled
as `none`.  The first token is stripped of quote characters (the source
line intends `strip("'\"")`). -/
def categorize (command_str : Str) : Option Str :=
  if command_str = [] then some ("other").toList
  else
    match pySplitWs command_str with
    | [] => none
    | tok0 :: _ =>
      let first := pyStrip [quoteC, dquoteC] tok0
      let low := pyLower command_str
      some (
        if first ∈ GIT_PREFIXES then ("git").toList
        else if first ∈ DOCKER_PREFIXES then ("container").toList
        else if first ∈ (["npm", "pnpm", "yarn"].map String.toList) then
          (if pyContains low ((" test").toList) || (" test").toList <:+ low then ("testing").toList
           else if LINT_KEYWORDS.any (fun k => pyContains low (' ' :: k)) then ("lint").toList
           else if BUILD_KEYWORDS.any (fun k => pyContains low (' ' :: k)) then ("build").toList
           else ("node").toList)
        else if first ∈ (["mvn", "gradle", "dotnet"].map String.toList) then
          (if TEST_KEYWORDS.any (fun k => pyContains low k) then ("testing").toList
           else if BUILD_KEYWORDS.any (fun k => pyContains low k) then ("build").toList
           else ("build").toList)
        else if first ∈ (["pytest", "tox", "nosetests"].map String.toList) then ("testing").toList
        else if LINT_KEYWORDS.any (fun k => pyContains low k) then ("lint").toList
        else if TEST_KEYWORDS.any (fun k => pyContains low k) then ("testing").toList
        else if BUILD_KEYWORDS.any (fun k => pyContains low k) then ("build").toList
        else ("other").toList)

/-! ## `utils.py` — redaction sanitizer -/

/-- `secret_keys` from `sanitize_command`. -/
def secret_keys : List Str :=
  ["--password", "--pass", "--token", "--apikey", "--api-key", "--secret",
   "--client-secret", "--access-token", "--refresh-token", "--bearer"].map String.toList

/-- `a.startswith(secret_prefixes)`: `a` starts with `k ++ "="` for some
secret key `k`. -/
def startsSecretEq (a : Str) : Bool :=
  secret_keys.any (fun k => (k ++ ['=']).isPrefixOf a)

/-- `a.split("=", 1)[0]`: everything before the first `=`. -/
def keyOf (a : Str) : Str := a.takeWhile (fun c => c ≠ '=')

/-- The replacement token `<redacted>`. -/
def redactedTok : Str := ("<redacted>").toList

/-- The emitted token for a `key=secret` argument: `key=<redacted>`. -/
def redactAssign (a : Str) : Str := keyOf a ++ '=' :: redactedTok

/-- `_looks_like_secret_blob`'s character class `[A-Za-z0-9_\-]`. -/
def blobChar (c : Char) : Bool := c.isAlphanum || c = '_' || c = '-'

/-- `_looks_like_secret_blob(s)` from `utils.py`. -/
def looks_like_secret_blob (s : Str) : Bool :=
  if s.length < 40 then false
  else if !(s.all blobChar) then false
  else s.any Char.isDigit && s.any Char.isAlpha

/-- The redaction loop of `sanitize_command` (the `while i < len(argv)`
walk), producing the list of emitted tokens before quoting/joining. -/
def redactLoop : List Str → List Str
  | [] => []
  | [a] =>
    if startsSecretEq a then [redactAssign a]
    else if looks_like_secret_blob a then [redactedTok]
    else [a]
  | a :: b :: rest =>
    if startsSecretEq a then redactAssign a :: redactLoop (b :: rest)
    else if decide (a ∈ secret_keys) then a :: redactedTok :: redactLoop rest
    else if looks_like_secret_blob a then redactedTok :: redactLoop (b :: rest)
    else a :: redactLoop (b :: rest)

/-- The safe character class of `shlex.quote`: ASCII `\w` plus the
punctuation `@ % + = : , . - slash`. -/
def shlexSafe (c : Char) : Bool :=
  c.isAlphanum || c = '_' || c = '@' || c = '%' || c = '+' || c = '=' ||
  c = ':' || c = ',' || c = '.' || c = '/' || c = '-'

/-- `s.replace("'", "'\"'\"'")` used inside `shlex.quote`. -/
def replaceQuote (s : Str) : Str :=
  s.flatMap (fun c => if c = quoteC then [quoteC, dquoteC, quoteC, dquoteC, quoteC] else [c])

/-- `shlex.quote(s)`. -/
def shlex_quote (s : Str) : Str :=
  if s = [] then [quoteC, quoteC]
  else if s.all shlexSafe then s
  else quoteC :: (replaceQuote s ++ [quoteC])

/-- `sep.join(xs)`. -/
def joinWith (sep : Str) : List Str → Str
  | [] => []
  | [x] => x
  | x :: y :: rest => x ++ sep ++ joinWith sep (y :: rest)

/-- The joined, quoted sanitized string before length truncation
(`" ".join(shlex.quote(x) for x in redacted)`). -/
def sanitizeJoined (argv : List Str) : Str :=
  joinWith [' '] ((redactLoop argv).map shlex_quote)

/-- `sanitize_command(argv, max_len)` from `utils.py`. -/
def sanitize_command (argv : List Str) (max_len : Nat) : Str :=
  let s := sanitizeJoined argv
  if s.length > max_len then s.take (max_len - 3) ++ ("...").toList
  else s

/-! ## `utils.py` — duration formatting -/

/-- Python `round()` (banker's rounding, half to even) on a rational. -/
def pyRound (q : Rat) : Int :=
  let f := q.floor
  let r := Rat.sub q (Rat.ofInt f)
  if Rat.blt r (mkRat 1 2) then f
  else if Rat.blt (mkRat 1 2) r then f + 1
  else if f % 2 = 0 then f else f + 1

/-- Decimal digits of a natural number. -/
def natStr (n : Nat) : Str := Nat.toDigits 10 n

/-- Python `f"{n:02d}"` for a natural number. -/
def pad2 (n : Nat) : Str :=
  let s := natStr n
  if s.length < 2 then '0' :: s else s

/-- `format_duration(seconds)` from `utils.py`.  The code clamps to `0`,
then takes `int(round(seconds))`; on a whole-second value `round` is the
identity, so with integer-second durations the rounding step drops out. -/
def format_duration (seconds : Int) : Str :=
  let total := (max 0 seconds).toNat
  let h := total / 3600
  let m := (total % 3600) / 60
  let s := total % 60
  if h > 0 then natStr h ++ 'h' :: ' ' :: pad2 m ++ 'm' :: ' ' :: pad2 s ++ ['s']
  else if m > 0 then natStr m ++ 'm' :: ' ' :: pad2 s ++ ['s']
  else natStr s ++ ['s']

/-! ## `models.py` / `db.py` — the run record

`models.py` in this snapshot of the repository declares `RunRecord` only up
to `tag`; every constructor call in `db.py` (`fetch_runs_between`,
`fetch_recent_runs`) and every reader (`report.py`, `cli.py`) also uses
`project`, `category`, `session_id` and `session_name`, so the evolved
record carried by the store's fetch functions has all twelve fields and is
embedded as such. -/

structure RunRecord where
  id : Nat
  started_at_utc : Int
  finished_at_utc : Int
  duration_s : Int
  exit_code : Int
  cwd : Str
  command : Str
  tag : Option Str
  project : Option Str
  category : Option Str
  session_id : Option Nat
  session_name : Option Str
deriving DecidableEq

/-! ## `report.py` -/

structure Report where
  title : Str
  total_s : Int
  success_s : Int
  failed_s : Int
  by_project : List (Str × Int)
  by_category : List (Str × Int)
  top_commands : List (Str × Int × Nat × Nat)
  top_failed : List (Str × Int × Nat)
deriving DecidableEq

/-- `_bar(value, max_value, width=18)` from `report.py` (the only genuine
float division; modelled over exact rationals). -/
def report_bar (value max_value : Int) (width : Nat) : Str :=
  if max_value ≤ 0 then []
  else
    let frac : Rat := Rat.div (Rat.ofInt value) (Rat.ofInt max_value)
    let filled := (pyRound (Rat.mul frac (Rat.ofInt (width : Int)))).toNat
    let filled := max 0 (min width filled)
    List.replicate filled (Char.ofNat 9608) ++ List.replicate (width - filled) ' '

/-- Helper for `splitOnC`: `acc` is the current (reversed) field. -/
def splitOnCAux (sep : Char) : Str → Str → List Str
  | [], acc => [acc.reverse]
  | c :: rest, acc =>
    if c = sep then acc.reverse :: splitOnCAux sep rest []
    else splitOnCAux sep rest (c :: acc)

/-- Python `s.split(sep)` for a single-character separator (keeps empty
fields; always returns a non-empty list). -/
def splitOnC (sep : Char) (s : Str) : List Str := splitOnCAux sep s []

/-- The `cwd`-derived project key of `_project_key`: strip trailing slash
and backslash characters, take the last backslash segment then the last
slash segment, defaulting to `"unknown"` when nothing remains. -/
def project_key_cwd (cwd : Str) : Str :=
  let p := (cwd.reverse.dropWhile (fun c => c = '/' || c = '\\')).reverse
  let last := if p ≠ [] then
      (splitOnC '/' ((splitOnC '\\' p).getLastD p)).getLastD p
    else p
  if last ≠ [] then last else ("unknown").toList

/-- `_project_key(r)` from `report.py` (`if r.project:` is Python
truthiness, so an empty-string project also falls back to `cwd`). -/
def project_key (r : RunRecord) : Str :=
  match r.project with
  | some p => if p ≠ [] then p else project_key_cwd r.cwd
  | none => project_key_cwd r.cwd

/-- Python dict update `d[k] = d.get(k, 0) + v` (insertion-ordered). -/
def bumpI (m : List (Str × Int)) (k : Str) (v : Int) : List (Str × Int) :=
  match m with
  | [] => [(k, v)]
  | (k0, v0) :: rest => if k0 = k then (k0, v0 + v) :: rest else (k0, v0) :: bumpI rest k v

/-- Python dict update `d[k] = d.get(k, 0) + 1`-style for counters. -/
def bumpN (m : List (Str × Nat)) (k : Str) (v : Nat) : List (Str × Nat) :=
  match m with
  | [] => [(k, v)]
  | (k0, v0) :: rest => if k0 = k then (k0, v0 + v) :: rest else (k0, v0) :: bumpN rest k v

/-- Python `d.get(k, 0)` on a counter dict. -/
def getN (m : List (Str × Nat)) (k : Str) : Nat :=
  match m with
  | [] => 0
  | (k0, v0) :: rest => if k0 = k then v0 else getN rest k

/-- The running accumulators of `build_report`'s single pass. -/
structure ReportAcc where
  total_s : Int
  success_s : Int
  failed_s : Int
  proj : List (Str × Int)
  cat : List (Str × Int)
  cmd_total : List (Str × Int)
  cmd_runs : List (Str × Nat)
  cmd_failed_runs : List (Str × Nat)
  cmd_failed_time : List (Str × Int)
deriving DecidableEq

def reportAcc0 : ReportAcc := ⟨0, 0, 0, [], [], [], [], [], []⟩

/-- One iteration of `build_report`'s `for r in runs` loop. -/
def reportStep (acc : ReportAcc) (r : RunRecord) : ReportAcc :=
  let acc := { acc with total_s := acc.total_s + r.duration_s }
  let acc :=
    if r.exit_code = 0 then { acc with success_s := acc.success_s + r.duration_s }
    else
      { acc with
        failed_s := acc.failed_s + r.duration_s
        cmd_failed_runs := bumpN acc.cmd_failed_runs r.command 1
        cmd_failed_time := bumpI acc.cmd_failed_time r.command r.duration_s }
  let pk := project_key r
  let acc := { acc with proj := bumpI acc.proj pk r.duration_s }
  let ck := match r.category with
    | some c => if c ≠ [] then c else ("other").toList
    | none => ("other").toList
  let acc := { acc with cat := bumpI acc.cat ck r.duration_s }
  { acc with
    cmd_total := bumpI acc.cmd_total r.command r.duration_s
    cmd_runs := bumpN acc.cmd_runs r.command 1 }

/-- `sorted(xs, key=lambda x: x[1], reverse=True)`: stable descending
order on the second component (Python `sorted` is stable). -/
def descVal (a b : Str × Int) : Prop := b.2 ≤ a.2

instance : DecidableRel descVal := fun a b => Int.decLe b.2 a.2

instance : IsTotal (Str × Int) descVal := ⟨fun a b => Int.le_total b.2 a.2⟩

instance : IsTrans (Str × Int) descVal := ⟨fun _ _ _ h1 h2 => le_trans h2 h1⟩

/-- `build_report(runs, title)` from `report.py`. -/
def build_report (runs : List RunRecord) (title : Str) : Report :=
  let acc := runs.foldl reportStep reportAcc0
  let by_project := (List.insertionSort descVal acc.proj).take 12
  let by_category := (List.insertionSort descVal acc.cat).take 12
  let top_cmds_sorted := (List.insertionSort descVal acc.cmd_total).take 12
  let top_commands := top_cmds_sorted.map
    (fun p => (p.1, p.2, getN acc.cmd_runs p.1, getN acc.cmd_failed_runs p.1))
  let top_failed_sorted := (List.insertionSort descVal acc.cmd_failed_time).take 8
  let top_failed := top_failed_sorted.map
    (fun p => (p.1, p.2, getN acc.cmd_failed_runs p.1))
  { title := title
    total_s := acc.total_s
    success_s := acc.success_s
    failed_s := acc.failed_s
    by_project := by_project
    by_category := by_category
    top_commands := top_commands
    top_failed := top_failed }

/-! ### `render_report_text` -/

/-- Signed decimal digits of an integer. -/
def intStr (i : Int) : Str := if i < 0 then '-' :: natStr (-i).toNat else natStr i.toNat

/-- Python `f"{x:.0%}"` on the exact ratio `num / den` (fixed-point
percent formatting, banker's rounding). -/
def formatPercent0 (num den : Int) : Str :=
  intStr (pyRound (Rat.div (Rat.ofInt (num * 100)) (Rat.ofInt den))) ++ ['%']

/-- Python `f"{s:<w}"`: pad right with spaces (never truncates). -/
def padR (s : Str) (w : Nat) : Str := s ++ List.replicate (w - s.length) ' '

/-- Python `f"{s:>w}"`: pad left with spaces (never truncates). -/
def padL (s : Str) (w : Nat) : Str := List.replicate (w - s.length) ' ' ++ s

/-- `max(v for _, v in xs)` over a non-empty list (the source only
evaluates it under a non-emptiness guard). -/
def maxVal (xs : List (Str × Int)) : Int :=
  match xs with
  | [] => 0
  | (_, v) :: rest => rest.foldl (fun m p => max m p.2) v

/-- `render_report_text(rep)` from `report.py`. -/
def render_report_text (rep : Report) : Str :=
  let totals :=
    [("Total tracked: ").toList ++ format_duration rep.total_s,
     ("Successful:   ").toList ++ format_duration rep.success_s,
     ("Failed:       ").toList ++ format_duration rep.failed_s] ++
    (if rep.total_s > 0 then [("Fail ratio:   ").toList ++ formatPercent0 rep.failed_s rep.total_s]
     else []) ++ [[]]
  let catBlock :=
    if rep.by_category ≠ [] then
      let maxv := maxVal rep.by_category
      ("By category:").toList ::
        rep.by_category.map (fun p =>
          ("  ").toList ++ padR p.1 10 ++ ' ' :: padL (format_duration p.2) 9 ++
            ("  ").toList ++ report_bar p.2 maxv 18) ++ [[]]
    else [("By category: (no data)").toList, []]
  let projBlock :=
    if rep.by_project ≠ [] then
      let maxv := maxVal rep.by_project
      ("By project:").toList ::
        rep.by_project.map (fun p =>
          ("  ").toList ++ padR p.1 14 ++ ' ' :: padL (format_duration p.2) 9 ++
            ("  ").toList ++ report_bar p.2 maxv 18) ++ [[]]
    else [("By project: (no data)").toList, []]
  let cmdBlock :=
    if rep.top_commands ≠ [] then
      ("Top time sinks:").toList ::
        (rep.top_commands.take 8).map (fun p =>
          let extra := natStr p.2.2.1 ++ (" runs").toList ++
            (if p.2.2.2 ≠ 0 then (", ").toList ++ natStr p.2.2.2 ++ (" failed").toList else [])
          ("  ").toList ++ padL (format_duration p.2.1) 9 ++ ("  (").toList ++ extra ++
            (")  ").toList ++ p.1) ++ [[]]
    else [("Top commands: (no data)").toList, []]
  let failBlock :=
    if rep.failed_s > 0 ∧ rep.top_failed ≠ [] then
      ("Wasted time (failed commands):").toList ::
        rep.top_failed.map (fun p =>
          ("  ").toList ++ padL (format_duration p.2.1) 9 ++ ("  (").toList ++
            natStr p.2.2 ++ (" failed)  ").toList ++ p.1) ++
        [[], ("Highlight: ").toList ++ format_duration rep.failed_s ++
          (" spent on failures.").toList]
    else []
  joinWith ['\n'] ([rep.title, []] ++ totals ++ catBlock ++ projBlock ++ cmdBlock ++ failBlock)

/-! ## `db.py` — the persistent store

The SQLite database is modelled as in-memory state.  `AUTOINCREMENT` row
ids are modelled by explicit counters; the `meta` row `active_session_id`
is modelled as `Option Nat` (its only writer, `set_active_session_id`,
always stores a canonical integer).  `started_at_utc` order on the stored
ISO-8601 UTC text agrees with the numeric order of the modelled
integer-second instants. -/

structure RunRow where
  id : Nat
  started_at_utc : Int
  finished_at_utc : Int
  duration_s : Int
  exit_code : Int
  cwd : Str
  command : Str
  tag : Option Str
  project : Option Str
  category : Option Str
  session_id : Option Nat
deriving DecidableEq

structure SessionRow where
  id : Nat
  name : Str
  started_at_utc : Int
  ended_at_utc : Option Int
deriving DecidableEq

structure DB where
  runs : List RunRow
  sessions : List SessionRow
  nextRunId : Nat
  nextSessionId : Nat
  activeSessionId : Option Nat
deriving DecidableEq

/-- The fields passed to `insert_run` (everything except the id the store
assigns). -/
structure RunFields where
  started_at_utc : Int
  finished_at_utc : Int
  duration_s : Int
  exit_code : Int
  cwd : Str
  command : Str
  tag : Option Str
  project : Option Str
  category : Option Str
  session_id : Option Nat
deriving DecidableEq

/-- `insert_run(conn, ...)` from `db.py`: one atomic row insert; returns
the updated store and the assigned id (`cur.lastrowid`). -/
def insert_run (db : DB) (f : RunFields) : DB × Nat :=
  let row : RunRow :=
    ⟨db.nextRunId, f.started_at_utc, f.finished_at_utc, f.duration_s, f.exit_code,
     f.cwd, f.command, f.tag, f.project, f.category, f.session_id⟩
  ({ db with runs := db.runs ++ [row], nextRunId := db.nextRunId + 1 }, db.nextRunId)

/-- `get_active_session_id(conn)`. -/
def get_active_session_id (db : DB) : Option Nat := db.activeSessionId

/-- `set_active_session_id(conn, session_id)`. -/
def set_active_session_id (db : DB) (sid : Option Nat) : DB :=
  { db with activeSessionId := sid }

/-- `create_session(conn, name=..., started_at_utc=...)`. -/
def create_session (db : DB) (name : Str) (started_at_utc : Int) : DB × Nat :=
  let row : SessionRow := ⟨db.nextSessionId, name, started_at_utc, none⟩
  ({ db with sessions := db.sessions ++ [row], nextSessionId := db.nextSessionId + 1 },
   db.nextSessionId)

/-- The `LEFT JOIN sessions` name lookup used by both fetch functions. -/
def sessionNameOf (db : DB) (sid : Option Nat) : Option Str :=
  match sid with
  | none => none
  | some i => (db.sessions.find? (fun s => s.id = i)).map (fun s => s.name)

/-- Row-to-record conversion performed by the fetch functions. -/
def rowToRecord (db : DB) (r : RunRow) : RunRecord :=
  ⟨r.id, r.started_at_utc, r.finished_at_utc, r.duration_s, r.exit_code, r.cwd,
   r.command, r.tag, r.project, r.category, r.session_id,
   sessionNameOf db r.session_id⟩

/-- `ORDER BY r.started_at_utc DESC`: descending by start instant; rows
with equal instants come back in descending rowid order (the descending
scan of the `idx_runs_started` index). -/
def recentOrder (a b : RunRow) : Prop :=
  b.started_at_utc < a.started_at_utc ∨
    (b.started_at_utc = a.started_at_utc ∧ b.id ≤ a.id)

instance : DecidableRel recentOrder := fun _a _b =>
  inferInstanceAs (Decidable (_ ∨ _))

instance : IsTotal RunRow recentOrder := by
  constructor
  intro a b
  rcases lt_trichotomy a.started_at_utc b.started_at_utc with h | h | h
  · exact Or.inr (Or.inl h)
  · rcases Nat.le_total b.id a.id with h2 | h2
    · exact Or.inl (Or.inr ⟨h.symm, h2⟩)
    · exact Or.inr (Or.inr ⟨h, h2⟩)
  · exact Or.inl (Or.inl h)

instance : IsTrans RunRow recentOrder := by
  constructor
  intro a b c h1 h2
  rcases h1 with h1 | ⟨e1, i1⟩
  · rcases h2 with h2 | ⟨e2, i2⟩
    · exact Or.inl (lt_trans h2 h1)
    · exact Or.inl (e2 ▸ h1)
  · rcases h2 with h2 | ⟨e2, i2⟩
    · exact Or.inl (e1 ▸ h2)
    · exact Or.inr ⟨e2.trans e1, le_trans i2 i1⟩

/-- `ORDER BY r.started_at_utc ASC`: ascending by start instant, equal
instants in ascending rowid order (the ascending index scan). -/
def ascOrder (a b : RunRow) : Prop :=
  a.started_at_utc < b.started_at_utc ∨
    (a.started_at_utc = b.started_at_utc ∧ a.id ≤ b.id)

instance : DecidableRel ascOrder := fun _a _b =>
  inferInstanceAs (Decidable (_ ∨ _))

instance : IsTotal RunRow ascOrder := by
  constructor
  intro a b
  rcases lt_trichotomy a.started_at_utc b.started_at_utc with h | h | h
  · exact Or.inl (Or.inl h)
  · rcases Nat.le_total a.id b.id with h2 | h2
    · exact Or.inl (Or.inr ⟨h, h2⟩)
    · exact Or.inr (Or.inr ⟨h.symm, h2⟩)
  · exact Or.inr (Or.inl h)

instance : IsTrans RunRow ascOrder := by
  constructor
  intro a b c h1 h2
  rcases h1 with h1 | ⟨e1, i1⟩
  · rcases h2 with h2 | ⟨e2, i2⟩
    · exact Or.inl (lt_trans h1 h2)
    · exact Or.inl (e2 ▸ h1)
  · rcases h2 with h2 | ⟨e2, i2⟩
    · exact Or.inl (e1 ▸ h2)
    · exact Or.inr ⟨e1.trans e2, le_trans i1 i2⟩

/-- `fetch_recent_runs(conn, limit=...)` from `db.py`. -/
def fetch_recent_runs (db : DB) (limit : Nat) : List RunRecord :=
  ((List.insertionSort recentOrder db.runs).take limit).map (rowToRecord db)

/-- The optional exact-match filters of `fetch_runs_between` (`if tag:`
is Python truthiness, so `None` and the empty string both disable a
string filter; the `session_id` filter only checks `is not None`). -/
structure RunFilters where
  tag : Option Str
  project : Option Str
  category : Option Str
  session_id : Option Nat
deriving DecidableEq

def strFilterB (fopt : Option Str) (field : Option Str) : Bool :=
  match fopt with
  | none => true
  | some t => if t = [] then true else decide (field = some t)

/-- The SQL `WHERE` clause of `fetch_runs_between` on one row. -/
def rowMatches (flt : RunFilters) (start_utc end_utc : Int) (r : RunRow) : Bool :=
  decide (start_utc ≤ r.started_at_utc) && decide (r.started_at_utc < end_utc) &&
  strFilterB flt.tag r.tag && strFilterB flt.project r.project &&
  strFilterB flt.category r.category &&
  (match flt.session_id with
   | none => true
   | some sid => decide (r.session_id = some sid))

/-- `fetch_runs_between(conn, start_utc, end_utc, limit, tag, project,
category, session_id)` from `db.py`. -/
def fetch_runs_between (db : DB) (start_utc end_utc : Int) (limit : Nat)
    (flt : RunFilters) : List RunRecord :=
  let matched := db.runs.filter (rowMatches flt start_utc end_utc)
  ((List.insertionSort ascOrder matched).take limit).map (rowToRecord db)

/-! ### `init_db` — schema bootstrap / migration

The on-disk schema is modelled by which tables exist (with their column
lists) plus the recorded `schema_version` meta row (kept as its stored
text, exactly as SQLite does).  `init_db` is fallible: its
`executescript` issues `CREATE INDEX IF NOT EXISTS` on the `project`,
`category` and `session_id` columns *before* the guarded
`ALTER TABLE ... ADD COLUMN` statements, and SQLite raises
`no such column` when a not-yet-existing index names a column the legacy
table lacks.  The raise is modelled as `none` (the partial state SQLite
leaves behind at the failing statement is not tracked; the claims only
concern whether migration raises). -/

def SCHEMA_VERSION : Int := 3

/-- The `runs` table as created by the version-3 `CREATE TABLE` script. -/
def runsColsV3 : List Str :=
  ["id", "started_at_utc", "finished_at_utc", "duration_s", "exit_code", "cwd",
   "command", "tag", "project", "category", "session_id"].map String.toList

/-- The `sessions` table as created by the `CREATE TABLE` script. -/
def sessionsColsV3 : List Str :=
  ["id", "name", "started_at_utc", "ended_at_utc"].map String.toList

/-- One `CREATE INDEX IF NOT EXISTS` statement: index name, the table it
is on (`true` = `runs`, `false` = `sessions`) and the indexed column. -/
structure IndexSpec where
  name : Str
  onRuns : Bool
  column : Str
deriving DecidableEq

/-- The `CREATE INDEX IF NOT EXISTS` statements in `executescript` order. -/
def schemaIndexes : List IndexSpec :=
  [⟨("idx_sessions_started").toList, false, ("started_at_utc").toList⟩,
   ⟨("idx_sessions_name").toList, false, ("name").toList⟩,
   ⟨("idx_runs_started").toList, true, ("started_at_utc").toList⟩,
   ⟨("idx_runs_cwd").toList, true, ("cwd").toList⟩,
   ⟨("idx_runs_tag").toList, true, ("tag").toList⟩,
   ⟨("idx_runs_project").toList, true, ("project").toList⟩,
   ⟨("idx_runs_category").toList, true, ("category").toList⟩,
   ⟨("idx_runs_session").toList, true, ("session_id").toList⟩]

structure SchemaState where
  metaTable : Bool
  sessionsCols : Option (List Str)
  runsCols : Option (List Str)
  indexes : List Str
  schemaVersion : Option Str
deriving DecidableEq

/-- `ALTER TABLE ... ADD COLUMN` guarded by `_table_has_column`. -/
def addColIfMissing (cols : List Str) (c : Str) : List Str :=
  if c ∈ cols then cols else cols ++ [c]

/-- `CREATE INDEX IF NOT EXISTS`: a no-op when the index exists; when it
does not, SQLite resolves the indexed column and raises `no such column`
(modelled as `none`) if the table lacks it. -/
def createIndexIfNotExists (sessionsCols runsCols : List Str)
    (idxs : Option (List Str)) (spec : IndexSpec) : Option (List Str) :=
  match idxs with
  | none => none
  | some l =>
    if spec.name ∈ l then some l
    else if spec.column ∈ (if spec.onRuns then runsCols else sessionsCols) then
      some (l ++ [spec.name])
    else none

/-- Digits-to-value helper for `pyInt?`. -/
def digitsVal (s : Str) : Nat := s.foldl (fun n c => n * 10 + (c.toNat - 48)) 0

/-- Python `int(str)` (sign and decimal digits; the source falls back to
`0` on failure via `except`). -/
def pyInt? (s : Str) : Option Int :=
  match s with
  | '-' :: rest => if rest ≠ [] && rest.all Char.isDigit then some (-(digitsVal rest)) else none
  | '+' :: rest => if rest ≠ [] && rest.all Char.isDigit then some (digitsVal rest) else none
  | _ => if s ≠ [] && s.all Char.isDigit then some (digitsVal s) else none

/-- `int(row["value"])` with the source's `except: v = 0` fallback. -/
def pyIntOr0 (s : Str) : Int := (pyInt? s).getD 0

/-- The `schema_version` meta-row update at the end of `init_db`: insert
the target when absent, raise to the target when lower, leave unchanged
otherwise. -/
def bumpVersion (v : Option Str) : Option Str :=
  match v with
  | none => some (("3").toList)
  | some s => if pyIntOr0 s < SCHEMA_VERSION then some (("3").toList) else some s

/-- `init_db(conn)` from `db.py`: `CREATE TABLE IF NOT EXISTS` for the
three tables and `CREATE INDEX IF NOT EXISTS` (the `executescript`),
then check-then-add for the three newer `runs` columns, then the
`schema_version` update.  The index statements run before the guarded
column adds, so they see the legacy column set and can raise (`none`). -/
def init_db (s : SchemaState) : Option SchemaState :=
  let sessionsC := s.sessionsCols.getD sessionsColsV3
  let runsC0 := s.runsCols.getD runsColsV3
  match schemaIndexes.foldl (createIndexIfNotExists sessionsC runsC0) (some s.indexes) with
  | none => none
  | some idxs =>
    let runsC := addColIfMissing (addColIfMissing (addColIfMissing
      runsC0 (("project").toList)) (("category").toList)) (("session_id").toList)
    some { metaTable := true
           sessionsCols := some sessionsC
           runsCols := some runsC
           indexes := idxs
           schemaVersion := bumpVersion s.schemaVersion }

/-- `timetrace session start` (`_cmd_session` in `cli.py`): reject when a
session is already active, otherwise create a session and make it the
active one; returns the updated store and the process exit code. -/
def cmd_session_start (db : DB) (name : Str) (now_utc : Int) : DB × Int :=
  match get_active_session_id db with
  | some _ => (db, 2)
  | none =>
    let created := create_session db name now_utc
    (set_active_session_id created.1 (some created.2), 0)

/-- Number of positions at which `pat` occurs in `s`. -/
def countOccur (pat : Str) : Str → Nat
  | [] => if pat.isEmpty then 1 else 0
  | c :: rest =>
    (if pat.isPrefixOf (c :: rest) then 1 else 0) + countOccur pat rest

/-! ## Binary64 semantics of the totals loop

`duration_s` is a Python float (IEEE-754 binary64).  Finite binary64
values are dyadic rationals `m * 2^e` and are modelled exactly as such;
addition computes the exact sum and rounds it to 53 significant bits,
ties to even.  (Overflow and subnormals never arise for command
durations and are outside this model.)  This is used to settle whether
the `total_s = success_s + failed_s` identity of `build_report`
(`report.py` lines 63-70) survives float regrouping. -/

structure Dyadic where
  m : Int
  e : Int
deriving DecidableEq

/-- Number of binary digits of `n` (fuel-driven so that it evaluates in
the kernel). -/
def bitLen : Nat → Nat → Nat
  | 0, _ => 0
  | f + 1, n => if n = 0 then 0 else bitLen f (n / 2) + 1

/-- Round a dyadic rational to 53 significant bits, ties to even:
the binary64 rounding of an exact sum of two binary64 values. -/
def fl64 (d : Dyadic) : Dyadic :=
  let a := d.m.natAbs
  let L := bitLen 4096 a
  if L ≤ 53 then d
  else
    let k := L - 53
    let q := a / 2 ^ k
    let r := a % 2 ^ k
    let half := 2 ^ (k - 1)
    let q2 := if half < r then q + 1
      else if r < half then q
      else if q % 2 = 0 then q else q + 1
    ⟨if d.m < 0 then -(q2 : Int) else (q2 : Int), d.e + (k : Int)⟩

/-- Exact sum of two dyadic rationals (aligning exponents). -/
def dAdd (x y : Dyadic) : Dyadic :=
  if x.e ≤ y.e then ⟨x.m + y.m * 2 ^ (y.e - x.e).toNat, x.e⟩
  else ⟨y.m + x.m * 2 ^ (x.e - y.e).toNat, y.e⟩

/-- Binary64 `+`: the exact sum, rounded. -/
def fAdd (x y : Dyadic) : Dyadic := fl64 (dAdd x y)

/-- Value equality of dyadic rationals (Python float `==`). -/
def dEq (x y : Dyadic) : Bool :=
  if x.e ≤ y.e then decide (x.m = y.m * 2 ^ (y.e - x.e).toNat)
  else decide (y.m = x.m * 2 ^ (x.e - y.e).toNat)

/-- A run as the totals loop of `build_report` sees it, with its float
duration. -/
structure FloatRun where
  duration_s : Dyadic
  exit_code : Int
deriving DecidableEq

/-- The `total_s` / `success_s` / `failed_s` accumulation of
`build_report` (`report.py` lines 63-70) under binary64 float semantics:
`total_s += r.duration_s`, then the duration is added to `success_s`
when `exit_code == 0` and to `failed_s` otherwise, each sum rounding as
Python float `+=` does. -/
def build_report_totals_float (runs : List FloatRun) : Dyadic × Dyadic × Dyadic :=
  runs.foldl
    (fun acc r =>
      let total := fAdd acc.1 r.duration_s
      if r.exit_code = 0 then (total, fAdd acc.2.1 r.duration_s, acc.2.2)
      else (total, acc.2.1, fAdd acc.2.2 r.duration_s))
    (⟨0, 0⟩, ⟨0, 0⟩, ⟨0, 0⟩)

/-! ## Claims -/

/-- C2: the spec claims `categorize` is total, returns a label from the
fixed set, and maps every empty or whitespace-only command to `other`.
The code handles the empty string, but on a whitespace-only string
`command_str.split()` is empty and `split()[0]` raises `IndexError`
(modelled as `none`), so classification is not total. -/
theorem categorize_whitespace_raises :
    categorize ("").toList = some (("other").toList) ∧
    categorize (" ").toList = none ∧
    categorize ("\t").toList = none := by decide

/-- C3: the end-to-end scenario: three runs (`git status`, 2 s, exit 0),
(`npm test`, 30 s, exit 1), (`npm run build`, 10 s, exit 0), each
categorized at insert time, give `total_s = 42`, `failed_s = 30`, the
category breakdown `testing 30, build 10, git 2`, and a top-failing list
of exactly `npm test` with 1 failed run and 30 s. -/
theorem build_report_three_run_scenario :
    (categorize ("git status").toList = some (("git").toList)) ∧
    (categorize ("npm test").toList = some (("testing").toList)) ∧
    (categorize ("npm run build").toList = some (("build").toList)) ∧
    (let runs : List RunRecord :=
      [⟨1, 100, 102, 2, 0, ("/home/u/proj").toList, ("git status").toList, none, none,
         categorize ("git status").toList, none, none⟩,
       ⟨2, 110, 140, 30, 1, ("/home/u/proj").toList, ("npm test").toList, none, none,
         categorize ("npm test").toList, none, none⟩,
       ⟨3, 150, 160, 10, 0, ("/home/u/proj").toList, ("npm run build").toList, none, none,
         categorize ("npm run build").toList, none, none⟩]
     let rep := build_report runs (("TimeTrace — today").toList)
     rep.total_s = 42 ∧ rep.failed_s = 30 ∧ rep.success_s = 12 ∧
     rep.by_category =
       [(("testing").toList, 30), (("build").toList, 10), (("git").toList, 2)] ∧
     rep.top_failed = [(("npm test").toList, 30, 1)]) := by decide

/-- C6: starting a session while one is already active (the meta
active-session pointer is set) is rejected with exit code 2, leaving the
store — sessions and active pointer included — unchanged. -/
theorem session_start_rejected_when_active (db : DB) (name : Str) (now_utc : Int)
    (sid : Nat) (h : get_active_session_id db = some sid) :
    cmd_session_start db name now_utc = (db, 2) := by
  unfold cmd_session_start
  rw [h]

/-- Witness for C6 at a concrete store with session 7 active. -/
theorem session_start_rejected_when_active_witness :
    cmd_session_start ⟨[], [⟨7, ("w").toList, 0, none⟩], 1, 8, some 7⟩ ("x").toList 5 =
      (⟨[], [⟨7, ("w").toList, 0, none⟩], 1, 8, some 7⟩, 2) :=
  session_start_rejected_when_active _ _ _ 7 rfl

/-- C7: for non-empty `argv` and the default `max_len = 300` the
sanitized string has length at most 300, and when the joined string
exceeds 300 characters it is the first 297 characters plus `...`. -/
theorem sanitize_command_length_bound (argv : List Str) (_hne : argv ≠ []) :
    (sanitize_command argv 300).length ≤ 300 ∧
    ((sanitizeJoined argv).length > 300 →
      sanitize_command argv 300 = (sanitizeJoined argv).take 297 ++ ("...").toList) := by
  have hdef : sanitize_command argv 300 =
      (if (sanitizeJoined argv).length > 300
       then (sanitizeJoined argv).take 297 ++ ("...").toList
       else sanitizeJoined argv) := rfl
  rw [hdef]
  constructor
  · split
    · rename_i hgt
      have h3 : (("...").toList).length = 3 := rfl
      simp only [List.length_append, List.length_take, h3]
      omega
    · rename_i hle
      omega
  · intro hgt
    rw [if_pos hgt]

/-- Witness for C7: a single 301-character argument forces truncation. -/
theorem sanitize_command_length_bound_witness :
    (sanitize_command [List.replicate 301 'x'] 300).length ≤ 300 ∧
    ((sanitizeJoined [List.replicate 301 'x']).length > 300 →
      sanitize_command [List.replicate 301 'x'] 300 =
        (sanitizeJoined [List.replicate 301 'x']).take 297 ++ ("...").toList) :=
  sanitize_command_length_bound _ (List.cons_ne_nil _ _)

end Timetrace

namespace Timetrace

theorem reportStep_total (acc : ReportAcc) (r : RunRecord) :
    (reportStep acc r).total_s = acc.total_s + r.duration_s := by
  unfold reportStep
  split <;> rfl

theorem reportStep_success (acc : ReportAcc) (r : RunRecord) :
    (reportStep acc r).success_s =
      (if r.exit_code = 0 then acc.success_s + r.duration_s else acc.success_s) := by
  unfold reportStep
  split <;> simp_all

theorem reportStep_failed (acc : ReportAcc) (r : RunRecord) :
    (reportStep acc r).failed_s =
      (if r.exit_code = 0 then acc.failed_s else acc.failed_s + r.duration_s) := by
  unfold reportStep
  split <;> simp_all

theorem reportFold_total (runs : List RunRecord) (acc : ReportAcc) :
    (runs.foldl reportStep acc).total_s =
      acc.total_s + (runs.map (fun r => r.duration_s)).sum := by
  induction runs generalizing acc with
  | nil => simp
  | cons r rest ih =>
    simp only [List.foldl_cons, List.map_cons, List.sum_cons, ih, reportStep_total]
    ring

theorem reportFold_success (runs : List RunRecord) (acc : ReportAcc) :
    (runs.foldl reportStep acc).success_s =
      acc.success_s +
        ((runs.filter (fun r => decide (r.exit_code = 0))).map (fun r => r.duration_s)).sum := by
  induction runs generalizing acc with
  | nil => simp
  | cons r rest ih =>
    simp only [List.foldl_cons, ih, reportStep_success]
    by_cases h : r.exit_code = 0
    · simp [List.filter_cons, h]
      ring
    · simp [List.filter_cons, h]

theorem reportFold_failed (runs : List RunRecord) (acc : ReportAcc) :
    (runs.foldl reportStep acc).failed_s =
      acc.failed_s +
        ((runs.filter (fun r => !decide (r.exit_code = 0))).map (fun r => r.duration_s)).sum := by
  induction runs generalizing acc with
  | nil => simp
  | cons r rest ih =>
    simp only [List.foldl_cons, ih, reportStep_failed]
    by_cases h : r.exit_code = 0
    · simp [List.filter_cons, h]
    · simp [List.filter_cons, h]
      ring

theorem filter_sum_split (runs : List RunRecord) :
    (runs.map (fun r => r.duration_s)).sum =
      ((runs.filter (fun r => decide (r.exit_code = 0))).map (fun r => r.duration_s)).sum +
      ((runs.filter (fun r => !decide (r.exit_code = 0))).map (fun r => r.duration_s)).sum := by
  induction runs with
  | nil => simp
  | cons r rest ih =>
    by_cases h : r.exit_code = 0
    · simp [List.filter_cons, h, ih]
      ring
    · simp [List.filter_cons, h, ih]
      ring

/-- C10 counterexample: the identity `total_s = success_s + failed_s`
fails in the float program at ordinary fractional durations.  For runs
of 0.1 s (exit 0), 0.2 s and 0.3 s (both failed) — the dyadic constants
below are exactly the binary64 values of 0.1, 0.2 and 0.3 —
`total_s` accumulates to the double 0.6000000000000001
(5404319552844596 * 2^-53) while `success_s + failed_s` evaluates to the
double 0.6 (5404319552844595 * 2^-53), so the claimed equality is false
as universally stated. -/
theorem build_report_total_split_cx :
    (dEq (build_report_totals_float
        [⟨⟨3602879701896397, -55⟩, 0⟩, ⟨⟨3602879701896397, -54⟩, 1⟩,
         ⟨⟨5404319552844595, -54⟩, 1⟩]).1
      ⟨5404319552844596, -53⟩ = true) ∧
    (dEq (fAdd (build_report_totals_float
        [⟨⟨3602879701896397, -55⟩, 0⟩, ⟨⟨3602879701896397, -54⟩, 1⟩,
         ⟨⟨5404319552844595, -54⟩, 1⟩]).2.1
      (build_report_totals_float
        [⟨⟨3602879701896397, -55⟩, 0⟩, ⟨⟨3602879701896397, -54⟩, 1⟩,
         ⟨⟨5404319552844595, -54⟩, 1⟩]).2.2)
      ⟨5404319552844595, -53⟩ = true) ∧
    (dEq (build_report_totals_float
        [⟨⟨3602879701896397, -55⟩, 0⟩, ⟨⟨3602879701896397, -54⟩, 1⟩,
         ⟨⟨5404319552844595, -54⟩, 1⟩]).1
      (fAdd (build_report_totals_float
        [⟨⟨3602879701896397, -55⟩, 0⟩, ⟨⟨3602879701896397, -54⟩, 1⟩,
         ⟨⟨5404319552844595, -54⟩, 1⟩]).2.1
      (build_report_totals_float
        [⟨⟨3602879701896397, -55⟩, 0⟩, ⟨⟨3602879701896397, -54⟩, 1⟩,
         ⟨⟨5404319552844595, -54⟩, 1⟩]).2.2) = false) := by decide

/-- C10 amended: for every finite run sequence whose durations are whole
numbers of seconds (on which binary64 arithmetic is exact as long as the
sums stay below 2^53, modelled here as exact integer seconds),
`build_report` satisfies `total_s = success_s + failed_s`; each run's
duration is counted in `success_s` exactly when its exit code is 0, in
`failed_s` otherwise, and in `total_s` in either case.  For general
fractional float durations the identity can fail by one ulp through
regrouping, as the counterexample above shows. -/
theorem build_report_total_split (runs : List RunRecord) (title : Str) :
    (build_report runs title).total_s =
        (build_report runs title).success_s + (build_report runs title).failed_s ∧
    (build_report runs title).total_s = (runs.map (fun r => r.duration_s)).sum ∧
    (build_report runs title).success_s =
      ((runs.filter (fun r => decide (r.exit_code = 0))).map (fun r => r.duration_s)).sum ∧
    (build_report runs title).failed_s =
      ((runs.filter (fun r => !decide (r.exit_code = 0))).map (fun r => r.duration_s)).sum := by
  have htot : (build_report runs title).total_s = (runs.map (fun r => r.duration_s)).sum := by
    unfold build_report
    simp only [reportFold_total]
    simp [reportAcc0]
  have hsuc : (build_report runs title).success_s =
      ((runs.filter (fun r => decide (r.exit_code = 0))).map (fun r => r.duration_s)).sum := by
    unfold build_report
    simp only [reportFold_success]
    simp [reportAcc0]
  have hfail : (build_report runs title).failed_s =
      ((runs.filter (fun r => !decide (r.exit_code = 0))).map (fun r => r.duration_s)).sum := by
    unfold build_report
    simp only [reportFold_failed]
    simp [reportAcc0]
  refine ⟨?_, htot, hsuc, hfail⟩
  rw [htot, hsuc, hfail]
  exact filter_sum_split runs

end Timetrace

namespace Timetrace

/-- C4: the claim says migration twice equals migration once and never
raises on any store state.  The code contradicts this: `init_db`'s
`executescript` creates `idx_runs_project` / `idx_runs_category` /
`idx_runs_session` *before* the guarded `ALTER TABLE ... ADD COLUMN`
statements, so on a legacy store whose `runs` table lacks those columns
SQLite raises `no such column` — exactly the stores the guarded adds
exist for.  The theorem evaluates the model at such a failing store
(`none` = raise), and shows that on stores that already carry the
columns — including a freshly created one — migration succeeds and a
second run returns the same schema unchanged, as the claim (and spec
section 4.1) intends. -/
theorem init_db_legacy_index_raises :
    (init_db ⟨true, some sessionsColsV3,
        some ((["id", "started_at_utc", "finished_at_utc", "duration_s", "exit_code",
          "cwd", "command", "tag"]).map String.toList), [], some (("2").toList)⟩ =
      none) ∧
    (init_db ⟨false, none, none, [], none⟩ =
      some ⟨true, some sessionsColsV3, some runsColsV3,
        schemaIndexes.map (fun i => i.name), some (("3").toList)⟩) ∧
    (init_db ⟨true, some sessionsColsV3, some runsColsV3,
        schemaIndexes.map (fun i => i.name), some (("3").toList)⟩ =
      some ⟨true, some sessionsColsV3, some runsColsV3,
        schemaIndexes.map (fun i => i.name), some (("3").toList)⟩) := by decide

end Timetrace

namespace Timetrace

theorem sort_recent_head {m : List RunRow} {x : RunRow} (hx : x ∈ m)
    (hmax : ∀ r ∈ m, r ≠ x → r.started_at_utc < x.started_at_utc) :
    ∃ t, List.insertionSort recentOrder m = x :: t := by
  have hsorted := List.sorted_insertionSort recentOrder m
  have hxL : x ∈ List.insertionSort recentOrder m :=
    (List.mem_insertionSort recentOrder).mpr hx
  cases hL : List.insertionSort recentOrder m with
  | nil => rw [hL] at hxL; cases hxL
  | cons h t =>
    rw [hL] at hxL hsorted
    by_cases hhx : h = x
    · exact ⟨t, by rw [hhx]⟩
    · have hhm : h ∈ m := (List.mem_insertionSort recentOrder).mp
        (hL ▸ List.mem_cons_self h t)
      have hlt : h.started_at_utc < x.started_at_utc := hmax h hhm hhx
      have hxt : x ∈ t := by
        rcases List.mem_cons.mp hxL with h1 | h1
        · exact absurd h1.symm hhx
        · exact h1
      rcases List.rel_of_sorted_cons hsorted x hxt with hr | ⟨he, _⟩
      · exact absurd hlt (lt_asymm hr)
      · rw [he] at hlt; exact absurd hlt (lt_irrefl _)

/-- C1 counterexample: insert a run that started at instant 100 into an
empty store, then insert a second run that started at instant 50 (as the
`record` command does for externally observed, back-dated runs).  The
second insert returns id 2, but `query_recent_runs(1)` — which orders by
`started_at_utc DESC`, not by insertion — returns the run with id 1, not
the run just inserted, so the claim fails as universally stated. -/
theorem fetch_recent_after_insert_cx :
    ((insert_run (insert_run ⟨[], [], 1, 1, none⟩
        ⟨100, 102, 2, 0, ("/w").toList, ("sleep 2").toList, none, none, none, none⟩).1
        ⟨50, 51, 1, 0, ("/w").toList, ("ls -l").toList, none, none, none, none⟩).2 = 2) ∧
    ((fetch_recent_runs (insert_run (insert_run ⟨[], [], 1, 1, none⟩
        ⟨100, 102, 2, 0, ("/w").toList, ("sleep 2").toList, none, none, none, none⟩).1
        ⟨50, 51, 1, 0, ("/w").toList, ("ls -l").toList, none, none, none, none⟩).1 1).map
      (fun r => r.id) = [1]) ∧ (1 : Nat) ≠ 2 := by decide

/-- C1 amended: when the inserted run's `started_at` is strictly later
than every run already stored (in particular, on any store whose runs are
inserted in chronological order), `insert_run` followed by
`query_recent_runs(1)` returns exactly the inserted run: the assigned id
and every inserted field — timestamps (to the second), exit code, cwd,
command, tag, project, category, session id — round-trip exactly. -/
theorem insert_then_recent_roundtrip (db : DB) (f : RunFields)
    (hnew : ∀ r ∈ db.runs, r.started_at_utc < f.started_at_utc) :
    fetch_recent_runs (insert_run db f).1 1 =
      [⟨(insert_run db f).2, f.started_at_utc, f.finished_at_utc, f.duration_s,
        f.exit_code, f.cwd, f.command, f.tag, f.project, f.category, f.session_id,
        sessionNameOf (insert_run db f).1 f.session_id⟩] := by
  have hx : (⟨db.nextRunId, f.started_at_utc, f.finished_at_utc, f.duration_s,
      f.exit_code, f.cwd, f.command, f.tag, f.project, f.category,
      f.session_id⟩ : RunRow) ∈ (insert_run db f).1.runs :=
    List.mem_append_right _ (List.mem_singleton_self _)
  have hmax : ∀ r ∈ (insert_run db f).1.runs,
      r ≠ (⟨db.nextRunId, f.started_at_utc, f.finished_at_utc, f.duration_s,
        f.exit_code, f.cwd, f.command, f.tag, f.project, f.category,
        f.session_id⟩ : RunRow) →
      r.started_at_utc < f.started_at_utc := by
    intro r hr hne
    rcases List.mem_append.mp hr with h1 | h1
    · exact hnew r h1
    · exact absurd (List.mem_singleton.mp h1) hne
  obtain ⟨t, ht⟩ := sort_recent_head hx hmax
  show ((List.insertionSort recentOrder (insert_run db f).1.runs).take 1).map
    (rowToRecord (insert_run db f).1) = _
  rw [ht]
  rfl

/-- Witness for C1 (amended) on the empty store. -/
theorem insert_then_recent_roundtrip_witness :
    fetch_recent_runs (insert_run ⟨[], [], 1, 1, none⟩
        ⟨100, 102, 2, 0, ("/w").toList, ("git status").toList,
          some (("t").toList), some (("p").toList), some (("git").toList), none⟩).1 1 =
      [⟨(insert_run (⟨[], [], 1, 1, none⟩ : DB)
          ⟨100, 102, 2, 0, ("/w").toList, ("git status").toList,
            some (("t").toList), some (("p").toList), some (("git").toList), none⟩).2,
        100, 102, 2, 0, ("/w").toList, ("git status").toList,
        some (("t").toList), some (("p").toList), some (("git").toList), none,
        sessionNameOf (insert_run (⟨[], [], 1, 1, none⟩ : DB)
          ⟨100, 102, 2, 0, ("/w").toList, ("git status").toList,
            some (("t").toList), some (("p").toList), some (("git").toList), none⟩).1 none⟩] :=
  insert_then_recent_roundtrip ⟨[], [], 1, 1, none⟩ _ (by intro r hr; cases hr)

end Timetrace

namespace Timetrace

/-- C5: for every window `[start, end)`, stored run set (in any insertion
order), limit and filter combination, `query_runs` returns only runs whose
`started_at` satisfies `start <= started_at < end`, and returns them in
ascending `started_at` order. -/
theorem fetch_runs_between_window_sorted (db : DB) (start_utc end_utc : Int)
    (limit : Nat) (flt : RunFilters) :
    (∀ rec ∈ fetch_runs_between db start_utc end_utc limit flt,
        start_utc ≤ rec.started_at_utc ∧ rec.started_at_utc < end_utc) ∧
    (fetch_runs_between db start_utc end_utc limit flt).Pairwise
      (fun a b => a.started_at_utc ≤ b.started_at_utc) := by
  constructor
  · intro rec hrec
    unfold fetch_runs_between at hrec
    rcases List.mem_map.mp hrec with ⟨row, hrow, hconv⟩
    have hrow2 : row ∈ List.insertionSort ascOrder
        (db.runs.filter (rowMatches flt start_utc end_utc)) :=
      List.take_subset _ _ hrow
    have hrow3 : row ∈ db.runs.filter (rowMatches flt start_utc end_utc) :=
      (List.mem_insertionSort ascOrder).mp hrow2
    have hmatch := List.of_mem_filter hrow3
    have hdec : start_utc ≤ row.started_at_utc ∧ row.started_at_utc < end_utc := by
      unfold rowMatches at hmatch
      simp only [Bool.and_eq_true, decide_eq_true_eq] at hmatch
      exact ⟨hmatch.1.1.1.1.1, hmatch.1.1.1.1.2⟩
    rw [← hconv]
    exact hdec
  · unfold fetch_runs_between
    refine @List.Pairwise.map _ _ ascOrder _ _ (rowToRecord db) ?_ ?_
    · intro a b hab
      show a.started_at_utc ≤ b.started_at_utc
      rcases hab with h | ⟨he, _⟩
      · exact le_of_lt h
      · exact le_of_eq he
    · exact List.Pairwise.sublist (List.take_sublist _ _)
        (List.sorted_insertionSort ascOrder _)

/-- Witness for C5: a store with one run started at instant 10 queried
with the window `[5, 20)`. -/
theorem fetch_runs_between_window_sorted_witness :
    ((5 : Int) ≤
      (⟨1, 10, 12, 2, 0, ("/w").toList, ("make").toList, none, none, none, none, none⟩ :
        RunRecord).started_at_utc) ∧
    ((⟨1, 10, 12, 2, 0, ("/w").toList, ("make").toList, none, none, none, none, none⟩ :
        RunRecord).started_at_utc < 20) :=
  (fetch_runs_between_window_sorted
    ⟨[⟨1, 10, 12, 2, 0, ("/w").toList, ("make").toList, none, none, none, none⟩],
      [], 2, 1, none⟩ 5 20 100 ⟨none, none, none, none⟩).1 _ (by decide)

end Timetrace

namespace Timetrace

/-- A list is an infix of anything it is an infix of, extended on the
left. -/
theorem infix_ext_left {p y : Str} (x : Str) (h : p <:+: y) : p <:+: x ++ y :=
  h.trans (List.suffix_append x y).isInfix

set_option maxRecDepth 100000 in
/-- C9 counterexample: on the empty run sequence all four ranked lists of
the report are empty, but the rendered text contains only three
`(no data)` placeholders — the failed-commands ("Wasted time") section is
omitted without a placeholder — so the output does not contain a
placeholder for each empty section. -/
theorem render_empty_report_cx :
    (build_report [] (("TimeTrace").toList)).by_project = [] ∧
    (build_report [] (("TimeTrace").toList)).by_category = [] ∧
    (build_report [] (("TimeTrace").toList)).top_commands = [] ∧
    (build_report [] (("TimeTrace").toList)).top_failed = [] ∧
    countOccur (("(no data)").toList)
      (render_report_text (build_report [] (("TimeTrace").toList))) = 3 ∧
    ¬ (4 ≤ countOccur (("(no data)").toList)
      (render_report_text (build_report [] (("TimeTrace").toList)))) := by decide

set_option maxRecDepth 100000 in
/-- C9 amended: `build_report` on the empty run sequence yields
`total_s = success_s = failed_s = 0` and four empty ranked lists, and
`render_report_text` (a total function in this model, so it cannot raise)
emits a `(no data)` placeholder for the category, project and top-commands
sections; the failed-commands section is omitted entirely, with no
placeholder. -/
theorem render_empty_report_amended (title : Str) :
    (build_report [] title).total_s = 0 ∧
    (build_report [] title).success_s = 0 ∧
    (build_report [] title).failed_s = 0 ∧
    (build_report [] title).by_project = [] ∧
    (build_report [] title).by_category = [] ∧
    (build_report [] title).top_commands = [] ∧
    (build_report [] title).top_failed = [] ∧
    (("By category: (no data)").toList <:+:
      render_report_text (build_report [] title)) ∧
    (("By project: (no data)").toList <:+:
      render_report_text (build_report [] title)) ∧
    (("Top commands: (no data)").toList <:+:
      render_report_text (build_report [] title)) := by
  have h0 : build_report [] title = ⟨title, 0, 0, 0, [], [], [], []⟩ := rfl
  have h1 : render_report_text ⟨title, 0, 0, 0, [], [], [], []⟩ =
      joinWith ['\n'] ([title, []] ++
        ([("Total tracked: ").toList ++ format_duration 0,
          ("Successful:   ").toList ++ format_duration 0,
          ("Failed:       ").toList ++ format_duration 0] ++
         (if (0:Int) > 0 then [("Fail ratio:   ").toList ++ formatPercent0 0 0] else []) ++
         [[]]) ++
        (if ([] : List (Str × Int)) ≠ [] then [] else [("By category: (no data)").toList, []]) ++
        (if ([] : List (Str × Int)) ≠ [] then [] else [("By project: (no data)").toList, []]) ++
        (if ([] : List (Str × Int × Nat × Nat)) ≠ [] then []
         else [("Top commands: (no data)").toList, []]) ++
        (if (0:Int) > 0 ∧ ([] : List (Str × Int × Nat)) ≠ [] then [] else [])) := rfl
  have h2 : joinWith ['\n'] ([title, []] ++
        ([("Total tracked: ").toList ++ format_duration 0,
          ("Successful:   ").toList ++ format_duration 0,
          ("Failed:       ").toList ++ format_duration 0] ++
         (if (0:Int) > 0 then [("Fail ratio:   ").toList ++ formatPercent0 0 0] else []) ++
         [[]]) ++
        (if ([] : List (Str × Int)) ≠ [] then [] else [("By category: (no data)").toList, []]) ++
        (if ([] : List (Str × Int)) ≠ [] then [] else [("By project: (no data)").toList, []]) ++
        (if ([] : List (Str × Int × Nat × Nat)) ≠ [] then []
         else [("Top commands: (no data)").toList, []]) ++
        (if (0:Int) > 0 ∧ ([] : List (Str × Int × Nat)) ≠ [] then [] else [])) =
      (title ++ ['\n']) ++
        ("\nTotal tracked: 0s\nSuccessful:   0s\nFailed:       0s\n\nBy category: (no data)\n\nBy project: (no data)\n\nTop commands: (no data)\n").toList := rfl
  have hrend : render_report_text (build_report [] title) =
      (title ++ ['\n']) ++
        ("\nTotal tracked: 0s\nSuccessful:   0s\nFailed:       0s\n\nBy category: (no data)\n\nBy project: (no data)\n\nTop commands: (no data)\n").toList := by
    rw [h0]
    exact h1.trans h2
  refine ⟨rfl, rfl, rfl, rfl, rfl, rfl, rfl, ?_, ?_, ?_⟩ <;>
    · rw [hrend]
      exact infix_ext_left _ (by decide)

end Timetrace

namespace Timetrace

/-! ## Infix decomposition lemmas (for the redaction claim) -/

theorem pre_split {α : Type} {q x y : List α} (h : q <+: x ++ y) :
    q <+: x ∨ ∃ q2, q = x ++ q2 ∧ q2 <+: y := by
  induction x generalizing q with
  | nil => exact Or.inr ⟨q, rfl, h⟩
  | cons c xs ih =>
    rw [List.cons_append] at h
    rcases List.prefix_cons_iff.mp h with hq | ⟨t, hqt, ht⟩
    · exact Or.inl (hq ▸ List.nil_prefix)
    · rcases ih ht with h2 | ⟨q2, ht2, hq2⟩
      · exact Or.inl (by rw [hqt]; exact List.cons_prefix_cons.mpr ⟨rfl, h2⟩)
      · exact Or.inr ⟨q2, by rw [hqt, ht2, List.cons_append], hq2⟩

theorem inf_split {α : Type} {p x y : List α} (h : p <:+: x ++ y) :
    p <:+: x ∨ p <:+: y ∨
      ∃ p1 p2, p = p1 ++ p2 ∧ p1 ≠ [] ∧ p2 ≠ [] ∧ p1 <:+ x ∧ p2 <+: y := by
  induction x generalizing p with
  | nil =>
    rw [List.nil_append] at h
    exact Or.inr (Or.inl h)
  | cons c xs ih =>
    obtain ⟨s, t, hst⟩ := h
    cases s with
    | nil =>
      cases p with
      | nil => exact Or.inl (List.nil_infix)
      | cons d p' =>
        rw [List.nil_append, List.cons_append, List.cons_append] at hst
        injection hst with hdc hrest
        subst hdc
        have hpre : p' <+: xs ++ y := ⟨t, hrest⟩
        rcases pre_split hpre with h2 | ⟨q2, hq2, hq2p⟩
        · exact Or.inl (List.cons_prefix_cons.mpr ⟨rfl, h2⟩).isInfix
        · by_cases hq2e : q2 = []
          · subst hq2e
            rw [List.append_nil] at hq2
            subst hq2
            exact Or.inl List.infix_rfl
          · refine Or.inr (Or.inr ⟨d :: xs, q2, ?_, List.cons_ne_nil _ _, hq2e,
              List.suffix_refl _, hq2p⟩)
            rw [hq2, List.cons_append]
    | cons e s' =>
      rw [List.cons_append, List.cons_append, List.cons_append] at hst
      injection hst with hec hrest
      rcases ih ⟨s', t, hrest⟩ with h2 | h2 | ⟨p1, p2, hp, h1n, h2n, hs1, hp2⟩
      · exact Or.inl (List.infix_cons h2)
      · exact Or.inr (Or.inl h2)
      · refine Or.inr (Or.inr ⟨p1, p2, hp, h1n, h2n, ?_, hp2⟩)
        obtain ⟨u, hu⟩ := hs1
        exact ⟨c :: u, by rw [List.cons_append, hu]⟩

theorem inf_cons_drop {α : Type} {p : List α} {c : α} {y : List α}
    (hp : p ≠ []) (hc : c ∉ p) (h : p <:+: c :: y) : p <:+: y := by
  obtain ⟨s, t, hst⟩ := h
  cases s with
  | nil =>
    cases p with
    | nil => exact absurd rfl hp
    | cons d p' =>
      rw [List.nil_append, List.cons_append] at hst
      injection hst with h1 _h2
      exact absurd (List.mem_cons.mpr (Or.inl h1.symm)) hc
  | cons e s' =>
    rw [List.cons_append] at hst
    injection hst with _h1 h2
    exact ⟨s', t, h2⟩

theorem inf_sep_split {α : Type} {p x y : List α} {c : α} (hp : p ≠ []) (hc : c ∉ p)
    (h : p <:+: x ++ c :: y) : p <:+: x ∨ p <:+: y := by
  have h' : p <:+: x ++ ([c] ++ y) := by simpa using h
  rcases inf_split h' with h1 | h1 | ⟨p1, p2, hpe, h1n, h2n, hs1, hp2⟩
  · exact Or.inl h1
  · exact Or.inr (inf_cons_drop hp hc (by simpa using h1))
  · exfalso
    cases p2 with
    | nil => exact h2n rfl
    | cons d p2' =>
      have hdc : d = c := (List.cons_prefix_cons.mp (by simpa using hp2)).1
      apply hc
      rw [hpe]
      exact List.mem_append_right _ (List.mem_cons.mpr (Or.inl hdc.symm))

theorem inf_bad_run {α : Type} {p b y : List α} (hp : p ≠ []) (hb : ∀ d ∈ b, d ∉ p)
    (h : p <:+: b ++ y) : p <:+: y := by
  induction b with
  | nil => simpa using h
  | cons c bs ih =>
    rw [List.cons_append] at h
    exact ih (fun d hd => hb d (List.mem_cons_of_mem _ hd))
      (inf_cons_drop hp (hb c (List.mem_cons_self _ _)) h)

theorem inf_block_split {α : Type} {p x b y : List α} (hp : p ≠ []) (hbne : b ≠ [])
    (hb : ∀ d ∈ b, d ∉ p) (h : p <:+: x ++ b ++ y) : p <:+: x ∨ p <:+: y := by
  cases b with
  | nil => exact absurd rfl hbne
  | cons c bs =>
    have h' : p <:+: x ++ c :: (bs ++ y) := by
      simpa [List.append_assoc] using h
    rcases inf_sep_split hp (hb c (List.mem_cons_self _ _)) h' with h1 | h1
    · exact Or.inl h1
    · exact Or.inr (inf_bad_run hp (fun d hd => hb d (List.mem_cons_of_mem _ hd)) h1)

theorem join_infix_token {p : Str} {toks : List Str} (hp : p ≠ []) (hsp : ' ' ∉ p)
    (h : p <:+: joinWith [' '] toks) : ∃ u ∈ toks, p <:+: u := by
  induction toks with
  | nil =>
    exact absurd (List.infix_nil.mp (by simpa [joinWith] using h)) hp
  | cons t rest ih =>
    cases rest with
    | nil => exact ⟨t, List.mem_singleton_self t, by simpa [joinWith] using h⟩
    | cons t2 rest2 =>
      have h' : p <:+: t ++ ' ' :: joinWith [' '] (t2 :: rest2) := by
        have : joinWith [' '] (t :: t2 :: rest2) =
            t ++ ' ' :: joinWith [' '] (t2 :: rest2) := by
          show (t ++ [' ']) ++ joinWith [' '] (t2 :: rest2) = _
          rw [List.append_assoc, List.singleton_append]
        rwa [this] at h
      rcases inf_sep_split hp hsp h' with h1 | h1
      · exact ⟨t, List.mem_cons_self _ _, h1⟩
      · obtain ⟨u, hu, hup⟩ := ih h1
        exact ⟨u, List.mem_cons_of_mem _ hu, hup⟩

theorem token_infix_join {u : Str} (sep : Str) :
    ∀ {toks : List Str}, u ∈ toks → u <:+: joinWith sep toks := by
  intro toks
  induction toks with
  | nil => intro h; cases h
  | cons t rest ih =>
    intro h
    cases rest with
    | nil =>
      rw [List.mem_singleton.mp h]
      exact List.infix_rfl
    | cons t2 r2 =>
      rcases List.mem_cons.mp h with h1 | h1
      · subst h1
        have : joinWith sep (u :: t2 :: r2) = u ++ (sep ++ joinWith sep (t2 :: r2)) := by
          show (u ++ sep) ++ joinWith sep (t2 :: r2) = _
          rw [List.append_assoc]
        rw [this]
        exact (List.prefix_append u _).isInfix
      · have hj : joinWith sep (t :: t2 :: r2) = (t ++ sep) ++ joinWith sep (t2 :: r2) := rfl
        rw [hj]
        exact infix_ext_left _ (ih h1)

end Timetrace

namespace Timetrace

theorem flatMap_pre {α : Type} (f : α → List α) (good : α → Prop)
    (hf : ∀ c, f c = [c] ∨ (f c ≠ [] ∧ ∀ d ∈ f c, ¬ good d)) :
    ∀ (a q : List α), (∀ c ∈ q, good c) → q <+: a.flatMap f → q <+: a := by
  intro a
  induction a with
  | nil =>
    intro q _hg h
    have hq : q = [] := List.prefix_nil.mp (by simpa using h)
    simp [hq]
  | cons c rest ih =>
    intro q hg h
    have h' : q <+: f c ++ rest.flatMap f := by simpa using h
    rcases hf c with hfc | ⟨hfne, hbad⟩
    · rw [hfc, List.singleton_append] at h'
      rcases List.prefix_cons_iff.mp h' with hq | ⟨t, hqt, ht⟩
      · simp [hq]
      · subst hqt
        have ht2 := ih t (fun d hd => hg d (List.mem_cons_of_mem _ hd)) ht
        exact List.cons_prefix_cons.mpr ⟨rfl, ht2⟩
    · cases q with
      | nil => exact List.nil_prefix
      | cons d q' =>
        exfalso
        cases hfcs : f c with
        | nil => exact hfne hfcs
        | cons e fs =>
          rw [hfcs] at h'
          have hde : d = e := (List.cons_prefix_cons.mp (by simpa using h')).1
          exact hbad e (hfcs ▸ List.mem_cons_self e fs)
            (hde ▸ hg d (List.mem_cons_self _ _))

theorem flatMap_inf {α : Type} (f : α → List α) (good : α → Prop)
    (hf : ∀ c, f c = [c] ∨ (f c ≠ [] ∧ ∀ d ∈ f c, ¬ good d)) :
    ∀ (a p : List α), p ≠ [] → (∀ c ∈ p, good c) → p <:+: a.flatMap f → p <:+: a := by
  intro a
  induction a with
  | nil =>
    intro p hp _hg h
    exact absurd (List.infix_nil.mp (by simpa using h)) hp
  | cons c rest ih =>
    intro p hp hg h
    have h' : p <:+: f c ++ rest.flatMap f := by simpa using h
    rcases inf_split h' with h1 | h1 | ⟨p1, p2, hpe, h1n, h2n, hs1, hp2⟩
    · rcases hf c with hfc | ⟨_hfne, hbad⟩
      · rw [hfc] at h1
        rcases List.sublist_singleton.mp h1.sublist with h2 | h2
        · exact absurd h2 hp
        · rw [h2]
          exact (List.cons_prefix_cons.mpr ⟨rfl, List.nil_prefix⟩).isInfix
      · exfalso
        cases p with
        | nil => exact hp rfl
        | cons d p' =>
          exact hbad d (h1.subset (List.mem_cons_self _ _))
            (hg d (List.mem_cons_self _ _))
    · exact List.infix_cons (ih p hp hg h1)
    · rcases hf c with hfc | ⟨_hfne, hbad⟩
      · rw [hfc] at hs1
        rcases List.suffix_cons_iff.mp hs1 with h2 | h2
        · have hp2' := flatMap_pre f good hf rest p2
            (fun d hd => hg d (hpe ▸ List.mem_append_right _ hd)) hp2
          rw [hpe, h2, List.singleton_append]
          exact (List.cons_prefix_cons.mpr ⟨rfl, hp2'⟩).isInfix
        · exact absurd (List.suffix_nil.mp h2) h1n
      · exfalso
        cases p1 with
        | nil => exact h1n rfl
        | cons d p1' =>
          exact hbad d (hs1.subset (List.mem_cons_self _ _))
            (hg d (hpe ▸ List.mem_append_left _ (List.mem_cons_self _ _)))

theorem replaceQuote_id {p : Str} (h : ∀ c ∈ p, c ≠ quoteC) : replaceQuote p = p := by
  induction p with
  | nil => rfl
  | cons c rest ih =>
    have hc : c ≠ quoteC := h c (List.mem_cons_self _ _)
    have hrest := ih (fun d hd => h d (List.mem_cons_of_mem _ hd))
    unfold replaceQuote at hrest ⊢
    simp only [List.flatMap_cons, if_neg hc, List.singleton_append, hrest]

end Timetrace

namespace Timetrace

/-- The expansion condition of `replaceQuote` for `flatMap_inf`:
each character maps either to itself or to a non-empty block consisting
solely of quote characters. -/
theorem replaceQuote_blocks (p : Str) (hq : quoteC ∉ p) (hdq : dquoteC ∉ p) :
    ∀ c : Char, (fun c => if c = quoteC then [quoteC, dquoteC, quoteC, dquoteC, quoteC]
        else [c]) c = [c] ∨
      ((fun c => if c = quoteC then [quoteC, dquoteC, quoteC, dquoteC, quoteC]
        else [c]) c ≠ [] ∧
       ∀ d ∈ (fun c => if c = quoteC then [quoteC, dquoteC, quoteC, dquoteC, quoteC]
        else [c]) c, ¬ d ∈ p) := by
  intro c
  by_cases hc : c = quoteC
  · refine Or.inr ⟨by simp [hc], ?_⟩
    intro d hd hdp
    simp only [hc, if_pos rfl] at hd
    rcases List.mem_cons.mp hd with h1 | hd
    · exact hq (h1 ▸ hdp)
    rcases List.mem_cons.mp hd with h1 | hd
    · exact hdq (h1 ▸ hdp)
    rcases List.mem_cons.mp hd with h1 | hd
    · exact hq (h1 ▸ hdp)
    rcases List.mem_cons.mp hd with h1 | hd
    · exact hdq (h1 ▸ hdp)
    rcases List.mem_cons.mp hd with h1 | hd
    · exact hq (h1 ▸ hdp)
    · cases hd
  · exact Or.inl (by simp [hc])

theorem quote_infix_rev {p u : Str} (hp : p ≠ []) (hq : quoteC ∉ p) (hdq : dquoteC ∉ p)
    (h : p <:+: shlex_quote u) : p <:+: u := by
  unfold shlex_quote at h
  split at h
  · exfalso
    cases p with
    | nil => exact hp rfl
    | cons d p' =>
      have hd : d ∈ [quoteC, quoteC] := h.subset (List.mem_cons_self _ _)
      have hdp : d ∈ d :: p' := List.mem_cons_self _ _
      rcases List.mem_cons.mp hd with h1 | hd2
      · exact hq (h1 ▸ hdp)
      · rcases List.mem_cons.mp hd2 with h1 | h1
        · exact hq (h1 ▸ hdp)
        · cases h1
  · split at h
    · exact h
    · have h1 : p <:+: replaceQuote u ++ [quoteC] :=
        inf_cons_drop hp hq h
      have h2 : p <:+: replaceQuote u := by
        rcases inf_block_split hp (List.cons_ne_nil _ _)
            (fun d hd => by
              rw [List.mem_singleton.mp hd]
              exact hq)
            (show p <:+: replaceQuote u ++ [quoteC] ++ [] by simpa using h1) with h2 | h2
        · exact h2
        · exact absurd (List.infix_nil.mp h2) hp
      exact flatMap_inf _ (fun c => c ∈ p)
        (replaceQuote_blocks p hq hdq) u p hp (fun _ hc => hc) h2

theorem infix_quote_of_infix {p u : Str} (hq : quoteC ∉ p) (h : p <:+: u) :
    p <:+: shlex_quote u := by
  unfold shlex_quote
  split
  · rename_i hu
    rw [hu] at h
    rw [List.infix_nil.mp h]
    exact List.nil_infix
  · split
    · exact h
    · obtain ⟨s, t, hst⟩ := h
      refine ⟨quoteC :: replaceQuote s, replaceQuote t ++ [quoteC], ?_⟩
      have hrepl : replaceQuote (s ++ p ++ t) =
          replaceQuote s ++ replaceQuote p ++ replaceQuote t := by
        unfold replaceQuote
        rw [List.flatMap_append, List.flatMap_append]
      have hpid : replaceQuote p = p :=
        replaceQuote_id (fun c hc => fun he => hq (he ▸ hc))
      rw [List.cons_append, ← hst, hrepl, hpid]
      simp [List.append_assoc]

end Timetrace

namespace Timetrace

theorem takeWhile_key {k rest : Str} (hk : ∀ c ∈ k, c ≠ '=') :
    (k ++ '=' :: rest).takeWhile (fun c => c ≠ '=') = k := by
  induction k with
  | nil => simp [List.takeWhile_cons]
  | cons c ks ih =>
    have hc : c ≠ '=' := hk c (List.mem_cons_self _ _)
    have ih2 := ih (fun d hd => hk d (List.mem_cons_of_mem _ hd))
    rw [List.cons_append, List.takeWhile_cons]
    simp only [decide_not] at ih2 ⊢
    simp [hc, ih2]

theorem keyOf_of_starts {a : Str} (h : startsSecretEq a = true) :
    ∃ k, k ∈ secret_keys ∧ keyOf a = k ∧ ∃ rest, a = k ++ '=' :: rest := by
  obtain ⟨k, hk, hpre⟩ := List.any_eq_true.mp h
  have hkeys : ∀ x ∈ secret_keys, ('=' ∉ x) ∧ x.length ≤ 15 := by decide
  obtain ⟨rest, hrest⟩ := List.isPrefixOf_iff_prefix.mp hpre
  have ha : a = k ++ '=' :: rest := by
    rw [← hrest, List.append_assoc, List.singleton_append]
  refine ⟨k, hk, ?_, rest, ha⟩
  rw [ha]
  exact takeWhile_key (fun c hc he => (hkeys k hk).1 (he ▸ hc))

theorem redactAssign_short {a : Str} (h : startsSecretEq a = true) :
    (redactAssign a).length ≤ 26 := by
  obtain ⟨k, hk, hkey, rest, _ha⟩ := keyOf_of_starts h
  have hkeys : ∀ x ∈ secret_keys, x.length ≤ 15 := by decide
  have hlen := hkeys k hk
  unfold redactAssign
  rw [hkey]
  have hrt : redactedTok.length = 10 := by decide
  simp only [List.length_append, List.length_cons, hrt]
  omega

theorem redactLoop_token_shape : ∀ (argv : List Str) (u : Str), u ∈ redactLoop argv →
    u.length ≤ 26 ∨ (u ∈ argv ∧ startsSecretEq u = false) := by
  intro argv
  induction argv using redactLoop.induct with
  | case1 =>
    intro u hu
    cases hu
  | case2 a h1 =>
    intro u hu
    rw [redactLoop, if_pos h1] at hu
    rw [List.mem_singleton.mp hu]
    exact Or.inl (redactAssign_short h1)
  | case3 a h1 h2 =>
    intro u hu
    rw [redactLoop, if_neg h1, if_pos h2] at hu
    rw [List.mem_singleton.mp hu]
    exact Or.inl (by decide)
  | case4 a h1 h2 =>
    intro u hu
    rw [redactLoop, if_neg h1, if_neg h2] at hu
    rw [List.mem_singleton.mp hu]
    exact Or.inr ⟨List.mem_singleton_self _, Bool.eq_false_iff.mpr h1⟩
  | case5 a b rest h1 ih =>
    intro u hu
    rw [redactLoop, if_pos h1] at hu
    rcases List.mem_cons.mp hu with h2 | h2
    · exact Or.inl (h2 ▸ redactAssign_short h1)
    · rcases ih u h2 with h3 | ⟨h3, h4⟩
      · exact Or.inl h3
      · exact Or.inr ⟨List.mem_cons_of_mem _ h3, h4⟩
  | case6 a b rest h1 h2 ih =>
    intro u hu
    rw [redactLoop, if_neg h1, if_pos h2] at hu
    have hkeys : ∀ x ∈ secret_keys, x.length ≤ 15 := by decide
    rcases List.mem_cons.mp hu with h3 | h3
    · subst h3
      exact Or.inl (le_trans (hkeys u (of_decide_eq_true h2)) (by omega))
    rcases List.mem_cons.mp h3 with h4 | h4
    · subst h4
      exact Or.inl (by decide)
    · rcases ih u h4 with h5 | ⟨h5, h6⟩
      · exact Or.inl h5
      · exact Or.inr ⟨List.mem_cons_of_mem _ (List.mem_cons_of_mem _ h5), h6⟩
  | case7 a b rest h1 h2 h3 ih =>
    intro u hu
    rw [redactLoop, if_neg h1, if_neg h2, if_pos h3] at hu
    rcases List.mem_cons.mp hu with h4 | h4
    · subst h4
      exact Or.inl (by decide)
    · rcases ih u h4 with h5 | ⟨h5, h6⟩
      · exact Or.inl h5
      · exact Or.inr ⟨List.mem_cons_of_mem _ h5, h6⟩
  | case8 a b rest h1 h2 h3 ih =>
    intro u hu
    rw [redactLoop, if_neg h1, if_neg h2, if_neg h3] at hu
    rcases List.mem_cons.mp hu with h4 | h4
    · subst h4
      exact Or.inr ⟨List.mem_cons_self _ _, Bool.eq_false_iff.mpr h1⟩
    · rcases ih u h4 with h5 | ⟨h5, h6⟩
      · exact Or.inl h5
      · exact Or.inr ⟨List.mem_cons_of_mem _ h5, h6⟩

end Timetrace

namespace Timetrace

theorem redacted_in_assign (a : Str) : redactedTok <:+: redactAssign a :=
  ⟨keyOf a ++ ['='], [], by simp [redactAssign]⟩

theorem redactLoop_has_redacted : ∀ (argv : List Str),
    (∃ a ∈ argv, startsSecretEq a = true) →
    ∃ u ∈ redactLoop argv, redactedTok <:+: u := by
  intro argv
  induction argv using redactLoop.induct with
  | case1 =>
    intro ⟨a, ha, _⟩
    cases ha
  | case2 a h1 =>
    intro _
    rw [redactLoop, if_pos h1]
    exact ⟨redactAssign a, List.mem_singleton_self _, redacted_in_assign a⟩
  | case3 a h1 h2 =>
    intro ⟨x, hx, hxs⟩
    rw [List.mem_singleton.mp hx] at hxs
    exact absurd hxs h1
  | case4 a h1 h2 =>
    intro ⟨x, hx, hxs⟩
    rw [List.mem_singleton.mp hx] at hxs
    exact absurd hxs h1
  | case5 a b rest h1 ih =>
    intro _
    rw [redactLoop, if_pos h1]
    exact ⟨redactAssign a, List.mem_cons_self _ _, redacted_in_assign a⟩
  | case6 a b rest h1 h2 ih =>
    intro _
    rw [redactLoop, if_neg h1, if_pos h2]
    exact ⟨redactedTok, List.mem_cons_of_mem _ (List.mem_cons_self _ _), List.infix_rfl⟩
  | case7 a b rest h1 h2 h3 ih =>
    intro ⟨x, hx, hxs⟩
    rw [redactLoop, if_neg h1, if_neg h2, if_pos h3]
    rcases List.mem_cons.mp hx with h4 | h4
    · rw [h4] at hxs
      exact absurd hxs h1
    · obtain ⟨u, hu, hru⟩ := ih ⟨x, h4, hxs⟩
      exact ⟨u, List.mem_cons_of_mem _ hu, hru⟩
  | case8 a b rest h1 h2 h3 ih =>
    intro ⟨x, hx, hxs⟩
    rw [redactLoop, if_neg h1, if_neg h2, if_neg h3]
    rcases List.mem_cons.mp hx with h4 | h4
    · rw [h4] at hxs
      exact absurd hxs h1
    · obtain ⟨u, hu, hru⟩ := ih ⟨x, h4, hxs⟩
      exact ⟨u, List.mem_cons_of_mem _ hu, hru⟩

end Timetrace

namespace Timetrace

/-- C8 amended, part A (helper): the secret value never survives into the
joined sanitized string when it occurs in no other argument. -/
theorem sanitize_value_gone (argv : List Str) (k value : Str)
    (hk : k ∈ secret_keys) (_hmem : (k ++ '=' :: value) ∈ argv)
    (hlen : 40 ≤ value.length) (hclass : ∀ c ∈ value, blobChar c = true)
    (hother : ∀ w ∈ argv, w ≠ k ++ '=' :: value → ¬ value <:+: w) :
    ¬ value <:+: sanitizeJoined argv := by
  have hvne : value ≠ [] := by
    intro he
    rw [he] at hlen
    simp at hlen
  have hnosp : ' ' ∉ value := by
    intro hsp
    have h := hclass ' ' hsp
    revert h
    decide
  have hnoq : quoteC ∉ value := by
    intro hsp
    have h := hclass quoteC hsp
    revert h
    decide
  have hnodq : dquoteC ∉ value := by
    intro hsp
    have h := hclass dquoteC hsp
    revert h
    decide
  have hstar : startsSecretEq (k ++ '=' :: value) = true := by
    unfold startsSecretEq
    rw [List.any_eq_true]
    refine ⟨k, hk, ?_⟩
    rw [List.isPrefixOf_iff_prefix]
    exact ⟨value, by simp⟩
  intro hinf
  obtain ⟨tq, htq, hvtq⟩ := join_infix_token hvne hnosp hinf
  obtain ⟨u, hu, hq⟩ := List.mem_map.mp htq
  rw [← hq] at hvtq
  have hvu : value <:+: u := quote_infix_rev hvne hnoq hnodq hvtq
  rcases redactLoop_token_shape argv u hu with hsh | ⟨huargv, hustarts⟩
  · have := hvu.length_le
    omega
  · have hne : u ≠ k ++ '=' :: value := by
      intro he
      rw [he, hstar] at hustarts
      cases hustarts
    exact hother u huargv hne hvu

/-- C8 amended: for every argv containing a recognized secret-flag
assignment `key=value` (`key` in the fixed secret-key set, `value` a
40-plus-character blob), the joined sanitized string always contains
`<redacted>`; the final output contains `<redacted>` whenever no length
truncation occurs (a joined string longer than `max_len` may cut the
marker off); and the output never contains the secret value, provided the
value does not occur as a substring of any other argument. -/
theorem sanitize_redaction_amended (argv : List Str) (k value : Str)
    (hk : k ∈ secret_keys) (hmem : (k ++ '=' :: value) ∈ argv)
    (hlen : 40 ≤ value.length) (hclass : ∀ c ∈ value, blobChar c = true)
    (_hdigit : value.any Char.isDigit = true) (_halpha : value.any Char.isAlpha = true)
    (hother : ∀ w ∈ argv, w ≠ k ++ '=' :: value → ¬ value <:+: w) :
    (redactedTok <:+: sanitizeJoined argv) ∧
    ((sanitizeJoined argv).length ≤ 300 → redactedTok <:+: sanitize_command argv 300) ∧
    ¬ value <:+: sanitize_command argv 300 := by
  have hvne : value ≠ [] := by
    intro he
    rw [he] at hlen
    simp at hlen
  have hstar : startsSecretEq (k ++ '=' :: value) = true := by
    unfold startsSecretEq
    rw [List.any_eq_true]
    refine ⟨k, hk, ?_⟩
    rw [List.isPrefixOf_iff_prefix]
    exact ⟨value, by simp⟩
  have hjoined : redactedTok <:+: sanitizeJoined argv := by
    obtain ⟨u, hu, hru⟩ := redactLoop_has_redacted argv ⟨_, hmem, hstar⟩
    have h1 : redactedTok <:+: shlex_quote u :=
      infix_quote_of_infix (by decide) hru
    exact h1.trans (token_infix_join [' '] (List.mem_map_of_mem shlex_quote hu))
  have hgone := sanitize_value_gone argv k value hk hmem hlen hclass hother
  refine ⟨hjoined, ?_, ?_⟩
  · intro hle
    have heq : sanitize_command argv 300 = sanitizeJoined argv := by
      have hdef : sanitize_command argv 300 =
          (if (sanitizeJoined argv).length > 300
           then (sanitizeJoined argv).take 297 ++ ("...").toList
           else sanitizeJoined argv) := rfl
      rw [hdef, if_neg (by omega)]
    rw [heq]
    exact hjoined
  · have hdef : sanitize_command argv 300 =
        (if (sanitizeJoined argv).length > 300
         then (sanitizeJoined argv).take 297 ++ ("...").toList
         else sanitizeJoined argv) := rfl
    rw [hdef]
    split
    · intro hinf
      have hdots : ∀ d ∈ ("...").toList, d ∉ value := by
        intro d hd hdv
        have hbc := hclass d hdv
        have : d = '.' := by
          rcases List.mem_cons.mp hd with h1 | hd2
          · exact h1
          rcases List.mem_cons.mp hd2 with h1 | hd3
          · exact h1
          rcases List.mem_cons.mp hd3 with h1 | hd4
          · exact h1
          · cases hd4
        rw [this] at hbc
        revert hbc
        decide
      rcases inf_block_split hvne (by decide) hdots
          (show value <:+: (sanitizeJoined argv).take 297 ++ ("...").toList ++ [] by
            simpa using hinf) with h1 | h1
      · exact hgone (h1.trans (List.take_prefix 297 _).isInfix)
      · exact hvne (List.infix_nil.mp h1)
    · exact hgone

end Timetrace


namespace Timetrace

set_option maxRecDepth 1000000 in
/-- C8 counterexample: the claim fails as stated, in two independent ways.
With a 300-character argument before the secret flag, the joined string
exceeds `max_len = 300` and truncation removes the `<redacted>` marker
entirely.  And when the 40-character blob also occurs inside another
argument (here prefixed with `!`, so neither the flag rule nor the blob
heuristic replaces that argument), the output contains `<redacted>` for
the flag but still contains the original secret value as a substring. -/
theorem sanitize_redaction_cx :
    (("--token=a1a1a1a1a1a1a1a1a1a1a1a1a1a1a1a1a1a1a1a1").toList = ("--token").toList ++ '=' :: ("a1a1a1a1a1a1a1a1a1a1a1a1a1a1a1a1a1a1a1a1").toList) ∧
    (("--token").toList ∈ secret_keys) ∧
    (looks_like_secret_blob ("a1a1a1a1a1a1a1a1a1a1a1a1a1a1a1a1a1a1a1a1").toList = true) ∧
    (¬ (redactedTok <:+:
        sanitize_command [List.replicate 300 'x', ("--token=a1a1a1a1a1a1a1a1a1a1a1a1a1a1a1a1a1a1a1a1").toList] 300)) ∧
    (redactedTok <:+:
        sanitize_command [("--token=a1a1a1a1a1a1a1a1a1a1a1a1a1a1a1a1a1a1a1a1").toList, ("!a1a1a1a1a1a1a1a1a1a1a1a1a1a1a1a1a1a1a1a1").toList] 300) ∧
    (("a1a1a1a1a1a1a1a1a1a1a1a1a1a1a1a1a1a1a1a1").toList <:+:
        sanitize_command [("--token=a1a1a1a1a1a1a1a1a1a1a1a1a1a1a1a1a1a1a1a1").toList, ("!a1a1a1a1a1a1a1a1a1a1a1a1a1a1a1a1a1a1a1a1").toList] 300) := by decide

set_option maxRecDepth 1000000 in
/-- Witness for C8 (amended) at the single-argument command line
`--token=<40-character blob>`. -/
theorem sanitize_redaction_amended_witness :
    (redactedTok <:+:
        sanitizeJoined [("--token").toList ++ '=' :: ("a1a1a1a1a1a1a1a1a1a1a1a1a1a1a1a1a1a1a1a1").toList]) ∧
    ((sanitizeJoined [("--token").toList ++ '=' :: ("a1a1a1a1a1a1a1a1a1a1a1a1a1a1a1a1a1a1a1a1").toList]).length ≤ 300 →
      redactedTok <:+:
        sanitize_command [("--token").toList ++ '=' :: ("a1a1a1a1a1a1a1a1a1a1a1a1a1a1a1a1a1a1a1a1").toList] 300) ∧
    ¬ ("a1a1a1a1a1a1a1a1a1a1a1a1a1a1a1a1a1a1a1a1").toList <:+:
        sanitize_command [("--token").toList ++ '=' :: ("a1a1a1a1a1a1a1a1a1a1a1a1a1a1a1a1a1a1a1a1").toList] 300 :=
  sanitize_redaction_amended [("--token").toList ++ '=' :: ("a1a1a1a1a1a1a1a1a1a1a1a1a1a1a1a1a1a1a1a1").toList]
    ("--token").toList ("a1a1a1a1a1a1a1a1a1a1a1a1a1a1a1a1a1a1a1a1").toList (by decide) (List.mem_singleton_self _)
    (by decide) (by decide) (by decide) (by decide) (by decide)

end Timetrace
